import Mathlib

/-!
Shallow embedding of the consensus-validation core of the classzz
(bourbaki-czz/classzz) node: block/transaction validation
(`blockchain/validate.go`), the compact/bignum difficulty codec, the
difficulty retarget formula, and the per-item foreign-chain entangle
verifiers (`cross` package).

Go `int64` arithmetic is modelled by `Int` together with explicit
two's-complement wrapping (`i64`), Go `uint32`/`uint64` conversions by
explicit `% 2 ^ 32` / `% 2 ^ 64`, Go `math/big` division (`Div`, which is
Euclidean) by `Int.ediv`, and Go's truncating division on machine integers
by `Int.tdiv`.  Calls into packages whose sources are not part of the
verified corpus (txscript, czzutil, rpcclient, the utxo cache and the
`cross` codec helpers) are parameters of the embedding, passed in
environment records; their *results* flow through the embedded control
flow exactly as in the source.
-/

set_option maxHeartbeats 1000000
set_option maxRecDepth 4000
set_option linter.unusedVariables false

namespace Classzz

/-- Two's-complement wrap of an integer into the `int64` range,
modelling Go's defined overflow behaviour. -/
def i64 (x : Int) : Int := (x + 2 ^ 63) % 2 ^ 64 - 2 ^ 63

/-- Go `int64` addition (wraps on overflow). -/
def i64add (a b : Int) : Int := i64 (a + b)

/-- Go `int64` multiplication (wraps on overflow). -/
def i64mul (a b : Int) : Int := i64 (a * b)

/-- Reinterpret a Go `uint64` value as `int64` (two's complement). -/
def i64ofU64 (h : Nat) : Int :=
  if h % 2 ^ 64 < 2 ^ 63 then ((h % 2 ^ 64 : Nat) : Int)
  else ((h % 2 ^ 64 : Nat) : Int) - 2 ^ 64

/-- Reinterpret a Go `uint64` value as `int32` (truncate, two's complement),
modelling `int32(serializedHeight)` in `ExtractCoinbaseHeight`. -/
def i32ofU64 (h : Nat) : Int :=
  if h % 2 ^ 32 < 2 ^ 31 then ((h % 2 ^ 32 : Nat) : Int)
  else ((h % 2 ^ 32 : Nat) : Int) - 2 ^ 32

/-- Model of `czzutil.SatoshiPerBitcoin`. -/
def satoshiPerBitcoin : Nat := 100000000

/-- Model of `czzutil.MaxSatoshi = 21e6 * SatoshiPerBitcoin`. -/
def maxSatoshi : Int := 21000000 * (satoshiPerBitcoin : Int)

/-- Model of `baseSubsidy = 1000 * czzutil.SatoshiPerBitcoin` (validate.go). -/
def baseSubsidy : Nat := 1000 * satoshiPerBitcoin

/-- Model of `wire.OutPoint`. -/
structure OutPoint where
  hash : Nat
  index : Nat
deriving DecidableEq, Repr

/-- The null outpoint: zero hash and index `math.MaxUint32`. -/
def isNullOutpoint (op : OutPoint) : Bool :=
  op.index = 4294967295 && op.hash = 0

/-- Model of `wire.TxIn` (scripts are byte lists). -/
structure TxIn where
  previousOutPoint : OutPoint
  signatureScript : List Nat
  sequence : Nat
deriving DecidableEq, Repr

/-- Model of `wire.TxOut`. -/
structure TxOut where
  value : Int
  pkScript : List Nat
deriving DecidableEq, Repr

/-- Model of `wire.MsgTx` (the fields the validator reads). -/
structure MsgTx where
  txIn : List TxIn
  txOut : List TxOut
  lockTime : Nat
deriving DecidableEq, Repr

/-- Model of `blockchain.UtxoEntry` (amount, script, origin height, flags). -/
structure UtxoEntry where
  amount : Int
  pkScript : List Nat
  blockHeight : Int
  isCoinBaseFlag : Bool
  isPoolFlag : Bool
  spent : Bool
deriving DecidableEq, Repr

/-- A utxo view is a lookup from outpoints to entries
(`UtxoViewpoint.LookupEntry`); `none` models a missing entry. -/
def UtxoView : Type := OutPoint → Option UtxoEntry

/-- The chain parameters consumed by the embedded functions
(`chaincfg.Params`). -/
structure ChainParams where
  entangleHeight : Int
  subsidyReductionInterval : Int
  coinbaseMaturity : Int
  powLimit : Int
  powLimitBits : Nat
  noDifficultyAdjustment : Bool
deriving Repr

/-- The rule-error codes of `blockchain/error.go` that the embedded code
paths can produce. -/
inductive ErrorCode where
  | ErrNoTxInputs
  | ErrNoTxOutputs
  | ErrTxTooBig
  | ErrTxTooSmall
  | ErrTxTooManySigOps
  | ErrBadTxOutValue
  | ErrDuplicateTxInputs
  | ErrBadCoinbaseScriptLen
  | ErrBadTxInput
  | ErrMissingTxOut
  | ErrSpentTxOut
  | ErrTooManySigOps
  | ErrImmatureSpend
  | ErrSpendTooHigh
  | ErrBadFees
  | ErrBadCoinbaseValue
  | ErrPrevBlockNotBest
  | ErrMissingCoinbaseHeight
  | ErrBadCoinbaseHeight
  | ErrUnfinalizedTx
deriving DecidableEq, Repr

/-- Errors observable from the embedded validator.  `rule` is a
`blockchain.RuleError`; `strE` is an `errors.New` string created by the
validator itself; `ext` is an error value produced by an external
component (utxo cache, cross-package codec, script engine, RPC);
`outRange` marks a Go runtime index-out-of-range panic. -/
inductive Err where
  | rule : ErrorCode → Err
  | strE : String → Err
  | ext : String → Err
  | outRange : Err
deriving DecidableEq, Repr

/-! ## CalcBlockSubsidy (validate.go:235) -/

/-- Model of `CalcBlockSubsidy(height, chainParams)`.  Go declares
`halvings := uint(height / chainParams.SubsidyReductionInterval)`
(truncating `int32` division, then conversion to `uint`, which wraps
mod `2^64`), and `subsidy := int64(baseSubsidy / halvings)` (unsigned
integer division), with a floor of 1. -/
def CalcBlockSubsidy (height : Int) (chainParams : ChainParams) : Int :=
  if chainParams.subsidyReductionInterval = 0 then (baseSubsidy : Int)
  else
    let halvings : Nat := ((Int.tdiv height chainParams.subsidyReductionInterval) % (2 ^ 64 : Int)).toNat
    if halvings = 0 then (baseSubsidy : Int)
    else
      let subsidy : Int := ((baseSubsidy / halvings : Nat) : Int)
      if subsidy = 0 then 1 else subsidy

/-! ## Compact/BigNum codec (validate.go:1736-1804) -/

/-- Model of `len(n.Bytes())` for a non-negative big integer: the minimal
big-endian byte length (0 for 0). -/
def byteLen (n : Nat) : Nat := if n = 0 then 0 else n.log2 / 8 + 1

/-- Model of `CompactToBig(compact)`: decode the 32-bit compact form
(8-bit exponent, sign bit 23, 23-bit mantissa) into a big integer. -/
def CompactToBig (compact : Nat) : Int :=
  let mantissa0 := compact &&& 0x007fffff
  let isNegative := compact &&& 0x00800000 ≠ 0
  let exponent := compact >>> 24
  let bn : Int :=
    if exponent ≤ 3 then ((mantissa0 >>> (8 * (3 - exponent)) : Nat) : Int)
    else ((mantissa0 <<< (8 * (exponent - 3)) : Nat) : Int)
  if isNegative then -bn else bn

/-- Model of `BigToCompact(n)`: encode a big integer into the compact form.
`uint32(...)` conversions are the explicit `% 2 ^ 32` reductions
(`n.Bits()[0]` is the low 64-bit word, hence the `% 2 ^ 64`); the Go
`uint32` left shift wraps, hence the trailing `% 2 ^ 32`. -/
def BigToCompact (n : Int) : Nat :=
  if n = 0 then 0
  else
    let a := n.natAbs
    let exponent := byteLen a
    let mantissa0 :=
      if exponent ≤ 3 then (a % 2 ^ 64 % 2 ^ 32) <<< (8 * (3 - exponent)) % 2 ^ 32
      else (a >>> (8 * (exponent - 3))) % 2 ^ 64 % 2 ^ 32
    let me :=
      if mantissa0 &&& 0x00800000 ≠ 0 then (mantissa0 >>> 8, exponent + 1)
      else (mantissa0, exponent)
    let compact := (me.2 <<< 24) % 2 ^ 32 ||| me.1
    if n < 0 then compact ||| 0x00800000 else compact

/-! ## Difficulty retarget (validate.go:1882-1933) -/

/-- The chain metadata the retarget reads from the parent `blockNode`:
its height, timestamp, cumulative work, the cumulative work of
`RelativeAncestor(1)` (read only when `height ≠ 0`), and its compact
bits. -/
structure BlockNode where
  height : Int
  timestamp : Int
  workSum : Int
  ancestorWorkSum : Int
  bits : Nat
deriving Repr

/-- Model of `DifficultyBoundDivisor = big.NewInt(128)`. -/
def DifficultyBoundDivisor : Int := 128

/-- Model of `calcNextRequiredDifficulty(lastNode, newBlockTime)`.  `lastNode =
none` is the genesis case.  All `big.Int` divisions are Euclidean
(`Int.ediv`), as Go's `big.Int.Div` documents. -/
def calcNextRequiredDifficulty (chainParams : ChainParams)
    (lastNode : Option BlockNode) (newBlockTime : Int) : Nat :=
  match lastNode with
  | none => chainParams.powLimitBits
  | some p =>
    if chainParams.noDifficultyAdjustment then p.bits
    else
      let x1 := Int.ediv (newBlockTime - p.timestamp) 30
      let x2 := 1 - x1
      let x3 := if x2 < -99 then -99 else x2
      let difficulty := if p.height ≠ 0 then p.workSum - p.ancestorWorkSum else p.workSum
      let y := difficulty * x3
      let x4 := Int.ediv y DifficultyBoundDivisor
      let newDifficulty := difficulty + x4
      let e : Int := 2 ^ 256
      let nt := e - newDifficulty
      let newTarget := Int.ediv nt newDifficulty
      let newTarget1 := if newTarget > chainParams.powLimit then chainParams.powLimit else newTarget
      BigToCompact newTarget1

/-! ## Cross-package data (cross/czzTx.go types, used by reference) -/

/-- Model of `cross.EntangleTxInfo`. -/
structure EntangleTxInfo where
  exTxType : Nat
  index : Nat
  height : Nat
  amount : Int
  extTxHash : List Nat
deriving DecidableEq, Repr

/-- Model of `cross.KeepedItem`. -/
structure KeepedItem where
  exTxType : Nat
  amount : Int
deriving DecidableEq, Repr

/-- Model of `cross.KeepedAmount`: per-foreign-chain running reserve. -/
structure KeepedAmount where
  count : Nat
  items : List KeepedItem
deriving DecidableEq, Repr

/-- Model of `cross.EtsInfo` (fee-per-KB plus the transaction). -/
structure EtsInfo where
  feePerKB : Int
  tx : MsgTx
deriving DecidableEq, Repr

/-! ## Script-engine / external-package environment -/

/-- Results of the external functions the validator calls (txscript,
czzutil serialization, the cross-package codec and sequence checker).
The validator treats all of them as opaque oracles; embedding them as
record fields preserves the exact dataflow of the source. -/
structure ScriptEnv where
  /-- Model of `txscript.GetSigOpCount(script, scriptFlags)` (flags fixed by the caller). -/
  getSigOpCount : List Nat → Nat
  /-- Model of `txscript.IsPayToScriptHash(pkScript)`. -/
  isPayToScriptHash : List Nat → Bool
  /-- Model of `txscript.GetPreciseSigOpCount(sigScript, pkScript, scriptFlags)`. -/
  getPreciseSigOpCount : List Nat → List Nat → Nat
  /-- Model of `tx.MsgTx().SerializeSize()`. -/
  txSerializeSize : MsgTx → Nat
  /-- Outcome of `matchPoolFromUtxo` for input index 1 or 2 (it depends
  only on the index and chain parameters, not on the utxo). -/
  matchPool : Nat → Option String
  /-- Model of `cross.IsEntangleTx(tx)`: the entangle infos carried by the
  transaction, if any (map iteration is modelled as a list). -/
  isEntangleTx : MsgTx → Option (List EntangleTxInfo)
  /-- Model of `cross.KeepedAmount.Parse(script)`. -/
  parseKeeped : List Nat → Except String KeepedAmount
  /-- Model of `cross.KeepedAmount.Add(item)`. -/
  addKeeped : KeepedAmount → KeepedItem → KeepedAmount
  /-- Model of `cross.PreCalcEntangleAmount(item, keep)`: the credited amount for
  an entangle item of the given type/value and the updated reserve. -/
  preCalcEntangleAmount : Nat → Int → KeepedAmount → Int × KeepedAmount
  /-- Model of `cross.VerifyTxsSequence(infos)`. -/
  verifyTxsSequence : List EtsInfo → Option String

/-! ## Sigop counting (validate.go:471-561) -/

/-- Model of `CountSigOps(tx, scriptFlags)`: fast count over all input signature
scripts and output pk scripts (Go `int` additions wrap). -/
def CountSigOps (env : ScriptEnv) (tx : MsgTx) : Int :=
  let inSum := tx.txIn.foldl (fun acc ti => i64add acc (env.getSigOpCount ti.signatureScript)) 0
  tx.txOut.foldl (fun acc o => i64add acc (env.getSigOpCount o.pkScript)) inSum

/-- The per-input loop of `CountP2SHSigOps`: look each referenced utxo
up, fail on missing/spent references, count precise sigops for P2SH
outputs, and detect accumulator overflow. -/
def countP2SHAux (env : ScriptEnv) (view : UtxoView) : List TxIn → Int → Except Err Int
  | [], total => .ok total
  | txIn :: rest, total =>
    match view txIn.previousOutPoint with
    | none => .error (.rule .ErrMissingTxOut)
    | some utxo =>
      if utxo.spent then .error (.rule .ErrSpentTxOut)
      else if ¬ env.isPayToScriptHash utxo.pkScript then countP2SHAux env view rest total
      else
        let numSigOps := (env.getPreciseSigOpCount txIn.signatureScript utxo.pkScript : Int)
        let newTotal := i64add total numSigOps
        if newTotal < total then .error (.rule .ErrTooManySigOps)
        else countP2SHAux env view rest newTotal

/-- Model of `CountP2SHSigOps(tx, isCoinBaseTx, utxoView, scriptFlags)`. -/
def CountP2SHSigOps (env : ScriptEnv) (tx : MsgTx) (isCoinBaseTx : Bool)
    (view : UtxoView) : Except Err Int :=
  if isCoinBaseTx then .ok 0
  else countP2SHAux env view tx.txIn 0

/-- Model of `GetSigOps(tx, isCoinBaseTx, utxoView, scriptFlags)`: the unified
count.  When the precise P2SH count fails the source returns `0, nil`,
discarding both the fast count and the error. -/
def GetSigOps (env : ScriptEnv) (tx : MsgTx) (isCoinBaseTx : Bool)
    (view : UtxoView) (bip16 : Bool) : Int × Option Err :=
  let numSigOps := CountSigOps env tx
  if bip16 then
    match CountP2SHSigOps env tx isCoinBaseTx view with
    | .error _ => (0, none)
    | .ok numP2SHSigOps => (i64add numSigOps numP2SHSigOps, none)
  else (numSigOps, none)

/-! ## Coinbase recognition (validate.go:108-171, 720-754) -/

/-- Model of `MaxTransactionSize` (post-UAHF). -/
def MaxTransactionSize : Nat := 1000000

/-- Model of `MinTransactionSize` (post-magneticanomaly). -/
def MinTransactionSize : Nat := 100

/-- Model of `MaxTransactionSigOps`. -/
def MaxTransactionSigOps : Int := 20000

/-- Model of `MinCoinbaseScriptLen`. -/
def MinCoinbaseScriptLen : Nat := 2

/-- Model of `MaxCoinbaseScriptLen`. -/
def MaxCoinbaseScriptLen : Nat := 100

/-- Model of `binary.LittleEndian.Uint64` over a byte list (missing bytes read
as the zero padding of the 8-byte buffer). -/
def leBytes : List Nat → Nat
  | [] => 0
  | b :: rest => b % 256 + 256 * leBytes rest

/-- Model of `txscript.OP_0`. -/
def OP_0 : Nat := 0

/-- Model of `txscript.OP_1`. -/
def OP_1 : Nat := 81

/-- Model of `txscript.OP_16`. -/
def OP_16 : Nat := 96

/-- Model of `ExtractCoinbaseHeight` applied to the coinbase's
`TxIn[0].SignatureScript`: a single small-int opcode, or a length byte
followed by that many little-endian height bytes (only the first 8 are
copied into the buffer), truncated to `int32`. -/
def ExtractCoinbaseHeight (sigScript : List Nat) : Except Err Int :=
  match sigScript with
  | [] => .error (.rule .ErrMissingCoinbaseHeight)
  | opcode :: rest =>
    if opcode = OP_0 then .ok 0
    else if OP_1 ≤ opcode ∧ opcode ≤ OP_16 then .ok ((opcode : Int) - (OP_1 - 1))
    else
      let serializedLen := opcode
      if rest.length < serializedLen then .error (.rule .ErrMissingCoinbaseHeight)
      else .ok (i32ofU64 (leBytes ((rest.take serializedLen).take 8)))

/-- Model of `IsCoinBaseTx` / `isCoinBaseInParam`, parameterized by the
`EntangleHeight` in effect (`chaincfg.MainNetParams.EntangleHeight` for
the former, `chainParams.EntangleHeight` for the latter): extract the
coinbase height, require 3 inputs at or past the entangle activation
(1 before), and a null previous outpoint on input 0.  Go indexes
`TxIn[0]` unconditionally and would panic on an empty input list; every
embedded call site runs after the input-count sanity check. -/
def IsCoinBaseWith (entangleHeight : Int) (tx : MsgTx) : Bool :=
  match tx.txIn.head? with
  | none => false
  | some txIn0 =>
    match ExtractCoinbaseHeight txIn0.signatureScript with
    | .error _ => false
    | .ok height =>
      (if height ≥ entangleHeight then tx.txIn.length == 3 else tx.txIn.length == 1) &&
      isNullOutpoint txIn0.previousOutPoint

/-! ## CheckTransactionSanity (validate.go:259-364) -/

/-- The per-output value loop: each value in `[0, MaxSatoshi]`, running
total (with `int64` wrap) never negative nor above `MaxSatoshi`. -/
def checkTxOutValues : List TxOut → Int → Option Err
  | [], _ => none
  | o :: rest, total =>
    if o.value < 0 then some (.rule .ErrBadTxOutValue)
    else if o.value > maxSatoshi then some (.rule .ErrBadTxOutValue)
    else
      let t := i64add total o.value
      if t < 0 then some (.rule .ErrBadTxOutValue)
      else if t > maxSatoshi then some (.rule .ErrBadTxOutValue)
      else checkTxOutValues rest t

/-- The duplicate-input scan (`existingTxOut` map keyed by outpoint). -/
def hasDuplicateInputs : List TxIn → List OutPoint → Bool
  | [], _ => false
  | ti :: rest, seen =>
    if seen.contains ti.previousOutPoint then true
    else hasDuplicateInputs rest (ti.previousOutPoint :: seen)

/-- Model of `CheckTransactionSanity(tx, magneticAnomalyActive, scriptFlags)`.
`mainNetEntangleHeight` stands for the package-level
`chaincfg.MainNetParams.EntangleHeight` read by `IsCoinBase`. -/
def CheckTransactionSanity (env : ScriptEnv) (mainNetEntangleHeight : Int)
    (tx : MsgTx) (magneticAnomalyActive : Bool) : Option Err :=
  if tx.txIn.length = 0 then some (.rule .ErrNoTxInputs)
  else if tx.txOut.length = 0 then some (.rule .ErrNoTxOutputs)
  else
    let serializedTxSize := env.txSerializeSize tx
    if serializedTxSize > MaxTransactionSize then some (.rule .ErrTxTooBig)
    else if magneticAnomalyActive ∧ serializedTxSize < MinTransactionSize then
      some (.rule .ErrTxTooSmall)
    else if CountSigOps env tx > MaxTransactionSigOps then some (.rule .ErrTxTooManySigOps)
    else
      match checkTxOutValues tx.txOut 0 with
      | some e => some e
      | none =>
        if hasDuplicateInputs tx.txIn [] then some (.rule .ErrDuplicateTxInputs)
        else if IsCoinBaseWith mainNetEntangleHeight tx then
          match tx.txIn.head? with
          | none => some .outRange
          | some txIn0 =>
            let slen := txIn0.signatureScript.length
            if slen < MinCoinbaseScriptLen ∨ slen > MaxCoinbaseScriptLen then
              some (.rule .ErrBadCoinbaseScriptLen)
            else none
        else if tx.txIn.any (fun ti => isNullOutpoint ti.previousOutPoint) then
          some (.rule .ErrBadTxInput)
        else none

/-! ## CheckTransactionInputs (validate.go:955-1142) -/

/-- Go `int64` subtraction (wraps on overflow). -/
def i64sub (a b : Int) : Int := i64 (a - b)

/-- The input loop of `checkMergeTxInCoinbase` for a post-entangle
coinbase: inputs 1.. must reference live utxos whose height is at least
`EntangleHeight - 1`; for inputs 1 and 2 a `matchPoolFromUtxo` failure
is swallowed (`return true, nil` in the source). -/
def mergeTxInLoop (env : ScriptEnv) (chainParams : ChainParams) (view : UtxoView) :
    List TxIn → Nat → Bool × Option Err
  | [], _ => (true, none)
  | txIn :: rest, txInIndex =>
    if txInIndex = 0 then mergeTxInLoop env chainParams view rest (txInIndex + 1)
    else
      match view txIn.previousOutPoint with
      | none => (true, some (.rule .ErrMissingTxOut))
      | some utxo =>
        if utxo.spent then (true, some (.rule .ErrSpentTxOut))
        else if utxo.blockHeight < chainParams.entangleHeight - 1 then
          (true, some (.rule .ErrBadTxOutValue))
        else if txInIndex ≤ 2 then
          match env.matchPool txInIndex with
          | some _ => (true, none)
          | none => mergeTxInLoop env chainParams view rest (txInIndex + 1)
        else mergeTxInLoop env chainParams view rest (txInIndex + 1)

/-- Model of `checkMergeTxInCoinbase(tx, txHeight, utxoView, chainParams)`. -/
def checkMergeTxInCoinbase (env : ScriptEnv) (chainParams : ChainParams)
    (tx : MsgTx) (txHeight : Int) (view : UtxoView) : Bool × Option Err :=
  if chainParams.entangleHeight ≥ txHeight then
    if IsCoinBaseWith chainParams.entangleHeight tx then (true, none) else (false, none)
  else
    if IsCoinBaseWith chainParams.entangleHeight tx then
      mergeTxInLoop env chainParams view tx.txIn 0
    else (false, none)

/-- The per-input loop of `CheckTransactionInputs`: live reference,
coinbase maturity for non-pool utxos, value range, wrapped running
total. -/
def txInputsLoop (chainParams : ChainParams) (view : UtxoView) (txHeight : Int) :
    List TxIn → Int → Except Err Int
  | [], total => .ok total
  | txIn :: rest, total =>
    match view txIn.previousOutPoint with
    | none => .error (.rule .ErrMissingTxOut)
    | some utxo =>
      if utxo.spent then .error (.rule .ErrSpentTxOut)
      else if utxo.isCoinBaseFlag ∧ ¬ utxo.isPoolFlag ∧
          txHeight - utxo.blockHeight < chainParams.coinbaseMaturity then
        .error (.rule .ErrImmatureSpend)
      else if utxo.amount < 0 then .error (.rule .ErrBadTxOutValue)
      else if utxo.amount > maxSatoshi then .error (.rule .ErrBadTxOutValue)
      else
        let newTotal := i64add total utxo.amount
        if newTotal < total ∨ newTotal > maxSatoshi then .error (.rule .ErrBadTxOutValue)
        else txInputsLoop chainParams view txHeight rest newTotal

/-- Model of `CheckTransactionInputs(tx, txHeight, utxoView, chainParams)`:
returns the transaction fee. -/
def CheckTransactionInputs (env : ScriptEnv) (chainParams : ChainParams)
    (tx : MsgTx) (txHeight : Int) (view : UtxoView) : Except Err Int :=
  match checkMergeTxInCoinbase env chainParams tx txHeight view with
  | (true, some e) => .error e
  | (true, none) => .ok 0
  | (false, _) =>
    match txInputsLoop chainParams view txHeight tx.txIn 0 with
    | .error e => .error e
    | .ok totalSatoshiIn =>
      let totalSatoshiOut := tx.txOut.foldl (fun acc o => i64add acc o.value) 0
      if totalSatoshiIn < totalSatoshiOut then .error (.rule .ErrSpendTooHigh)
      else .ok (i64sub totalSatoshiIn totalSatoshiOut)

/-! ## checkTxSequence (validate.go:397-407, 1578-1641) -/

/-- Model of `getFee(tx, txHeight, utxoView, chainParams)`. -/
def getFeeLoop (view : UtxoView) : List TxIn → Int → Except Err Int
  | [], total => .ok total
  | txIn :: rest, total =>
    match view txIn.previousOutPoint with
    | none => .error (.rule .ErrMissingTxOut)
    | some utxo =>
      if utxo.amount < 0 then .error (.rule .ErrBadTxOutValue)
      else getFeeLoop view rest (i64add total utxo.amount)

/-- Model of `getFee`. -/
def getFee (env : ScriptEnv) (chainParams : ChainParams) (tx : MsgTx)
    (txHeight : Int) (view : UtxoView) : Except Err Int :=
  if IsCoinBaseWith chainParams.entangleHeight tx then .ok 0
  else
    match getFeeLoop view tx.txIn 0 with
    | .error e => .error e
    | .ok totalSatoshiIn =>
      let totalSatoshiOut := tx.txOut.foldl (fun acc o => i64add acc o.value) 0
      if totalSatoshiIn < totalSatoshiOut then .error (.rule .ErrSpendTooHigh)
      else .ok (i64sub totalSatoshiIn totalSatoshiOut)

/-- Model of `getEtsInfoInBlock(block, utxoView, chainParams)`: per-transaction
fee-per-KB records (`fee * 1000 / serializeSize`, truncating `int64`
division; Go would panic on a zero size). -/
def getEtsInfoInBlock (env : ScriptEnv) (chainParams : ChainParams)
    (view : UtxoView) (blockHeight : Int) : List MsgTx → Except Err (List EtsInfo)
  | [] => .ok []
  | tx :: rest =>
    match getFee env chainParams tx blockHeight view with
    | .error e => .error e
    | .ok fee =>
      match getEtsInfoInBlock env chainParams view blockHeight rest with
      | .error e => .error e
      | .ok infos =>
        .ok (⟨Int.tdiv (i64mul fee 1000) (env.txSerializeSize tx : Int), tx⟩ :: infos)

/-- Model of `checkTxSequence(block, utxoView, chainParams)`. -/
def checkTxSequence (env : ScriptEnv) (chainParams : ChainParams)
    (blockTxs : List MsgTx) (blockHeight : Int) (view : UtxoView) : Option Err :=
  if chainParams.entangleHeight ≥ blockHeight then none
  else
    match getEtsInfoInBlock env chainParams view blockHeight blockTxs with
    | .error e => some e
    | .ok infos =>
      match env.verifyTxsSequence infos with
      | some s => some (.ext s)
      | none => none

/-! ## Subsidy & pool accounting (validate.go:997-1029, 1437-1546) -/

/-- Model of `KeepedInfoSummay`. -/
structure KeepedInfoSummay where
  totalIn : Int
  totalOut : Int
  keepedAmountInBlock : KeepedAmount
  entangleAmount : Int
  lastpool1Amount : Int
  lastpool2Amount : Int
  pool1Amount : Int
  pool2Amount : Int
deriving Repr

/-- Model of `getKeepedAmountFormPreBlock(block)`: parse the carried reserve out
of the previous coinbase's output 3 (empty when absent). -/
def getKeepedAmountFormPreBlock (env : ScriptEnv) (preblockTxs : List MsgTx) :
    Except Err KeepedAmount :=
  match preblockTxs.head? with
  | none => .ok ⟨0, []⟩
  | some coinbaseTx =>
    match coinbaseTx.txOut.get? 3 with
    | none => .ok ⟨0, []⟩
    | some o3 =>
      match env.parseKeeped o3.pkScript with
      | .error s => .error (.ext s)
      | .ok k => .ok k

/-- Model of `getPoolAmountFromPreBlock`: read outputs 1 and 2 of the previous
coinbase (Go panics when they do not exist; `block.Tx(0)` errors on an
empty block). -/
def getPoolAmountFromPreBlock (preblockTxs : List MsgTx) : Except Err (Int × Int) :=
  match preblockTxs.head? with
  | none => .error (.ext "transaction index out of range")
  | some cb =>
    match cb.txOut.get? 1, cb.txOut.get? 2 with
    | some o1, some o2 => .ok (o1.value, o2.value)
    | _, _ => .error .outRange

/-- Model of `handleSummayEntangle`: accumulate the entangle infos of one
transaction into the reserve and the running entangle amount.  Returns
(updated reserve, updated in-block keeped amount, updated total). -/
def handleSummayEntangle (env : ScriptEnv) :
    List EntangleTxInfo → KeepedAmount → KeepedAmount → Int →
    KeepedAmount × KeepedAmount × Int
  | [], keepInfo, inBlock, amt => (keepInfo, inBlock, amt)
  | v :: rest, keepInfo, inBlock, amt =>
    let inBlock1 := env.addKeeped inBlock ⟨v.exTxType, v.amount⟩
    let pc := env.preCalcEntangleAmount v.exTxType v.amount keepInfo
    handleSummayEntangle env rest pc.2 inBlock1 (i64add amt (i64 pc.1))

/-- The coinbase-output scan of `summayOfTxsAndCheck` (`txIndex == 0`):
outputs 4.. feed `amount1`, outputs 1 and 2 are the pool outputs, all
feed `totalOut`. -/
def coinbaseOutScan : List TxOut → Nat → Int × Int × Int × Int → Int × Int × Int × Int
  | [], _, st => st
  | o :: rest, i, (amount1, pool1, pool2, totalOut) =>
    let amount1' := if i > 3 then i64add amount1 o.value else amount1
    let pool1' := if i = 1 then o.value else pool1
    let pool2' := if i = 2 then o.value else pool2
    coinbaseOutScan rest (i + 1) (amount1', pool1', pool2', i64add totalOut o.value)

/-- The input scan of a non-coinbase transaction in
`summayOfTxsAndCheck`. -/
def summayInputsFold (view : UtxoView) : List TxIn → Int → Except Err Int
  | [], total => .ok total
  | txIn :: rest, total =>
    match view txIn.previousOutPoint with
    | none => .error (.rule .ErrMissingTxOut)
    | some utxo => summayInputsFold view rest (i64add total utxo.amount)

/-- Running state of the transaction loop in `summayOfTxsAndCheck`. -/
structure SummayState where
  keepInfo : KeepedAmount
  keepedInBlock : KeepedAmount
  entangleAmount : Int
  amount1 : Int
  pool1Amount : Int
  pool2Amount : Int
  totalIn : Int
  totalOut : Int

/-- The transaction loop of `summayOfTxsAndCheck`. -/
def summayLoop (env : ScriptEnv) (view : UtxoView) :
    List MsgTx → Nat → SummayState → Except Err SummayState
  | [], _, st => .ok st
  | tx :: rest, txIndex, st =>
    if txIndex = 0 then
      let sc := coinbaseOutScan tx.txOut 0 (st.amount1, st.pool1Amount, st.pool2Amount, st.totalOut)
      summayLoop env view rest (txIndex + 1)
        { st with amount1 := sc.1, pool1Amount := sc.2.1, pool2Amount := sc.2.2.1,
                  totalOut := sc.2.2.2 }
    else
      let st1 :=
        match env.isEntangleTx tx with
        | some einfos =>
          let h := handleSummayEntangle env einfos st.keepInfo st.keepedInBlock st.entangleAmount
          { st with keepInfo := h.1, keepedInBlock := h.2.1, entangleAmount := h.2.2 }
        | none => st
      let totalOut1 := tx.txOut.foldl (fun acc o => i64add acc o.value) st1.totalOut
      match summayInputsFold view tx.txIn st1.totalIn with
      | .error e => .error e
      | .ok totalIn1 =>
        summayLoop env view rest (txIndex + 1) { st1 with totalIn := totalIn1, totalOut := totalOut1 }

/-- Model of `summayOfTxsAndCheck(preblock, block, utxoView, subsidy,
pool1Amount, pool2Amount)`. -/
def summayOfTxsAndCheck (env : ScriptEnv) (preblockTxs blockTxs : List MsgTx)
    (view : UtxoView) (subsidy pool1Amount pool2Amount : Int) :
    Except Err KeepedInfoSummay :=
  match getKeepedAmountFormPreBlock env preblockTxs with
  | .error e => .error e
  | .ok keepInfo =>
    match getPoolAmountFromPreBlock preblockTxs with
    | .error e => .error e
    | .ok lastPools =>
      let totalIn0 :=
        i64add (i64add (i64add (i64add lastPools.1 lastPools.2) pool1Amount) pool2Amount) subsidy
      match summayLoop env view blockTxs 0
          ⟨keepInfo, ⟨0, []⟩, 0, 0, 0, 0, totalIn0, 0⟩ with
      | .error e => .error e
      | .ok st =>
        if st.amount1 ≠ st.entangleAmount then
          .error (.strE "not match the entangle amount")
        else
          .ok ⟨st.totalIn, st.totalOut, st.keepedInBlock, st.entangleAmount,
               lastPools.1, lastPools.2, st.pool1Amount, st.pool2Amount⟩

/-- Model of `checkBlockSubsidy(block, preBlock, txHeight, utxoView,
amountSubsidy, chainParams)`.  Note the early `txHeight <=
EntangleHeight` success return; the `txHeight == EntangleHeight`
catch-up branch sits behind it. -/
def checkBlockSubsidy (env : ScriptEnv) (chainParams : ChainParams)
    (blockTxs preblockTxs : List MsgTx) (txHeight : Int) (view : UtxoView)
    (amountSubsidy : Int) : Option Err :=
  if txHeight ≤ chainParams.entangleHeight then none
  else
    let originIncome1 := Int.tdiv (i64mul amountSubsidy 19) 100
    let originIncome2 := Int.tdiv amountSubsidy 100
    let originIncome3 := i64sub (i64sub amountSubsidy originIncome1) originIncome2
    let oi :=
      if txHeight = chainParams.entangleHeight then
        (i64mul originIncome1 (chainParams.entangleHeight - 1),
         i64mul originIncome2 (chainParams.entangleHeight - 1))
      else (originIncome1, originIncome2)
    match summayOfTxsAndCheck env preblockTxs blockTxs view originIncome3 oi.1 oi.2 with
    | .error e => some e
    | .ok summay =>
      let expPool1Amount := i64sub (i64add summay.lastpool1Amount oi.1) summay.entangleAmount
      if summay.pool1Amount ≠ expPool1Amount then
        some (.strE "BlockSubsidy: pool1 reward wrong")
      else if i64add oi.2 summay.lastpool2Amount ≠ summay.pool2Amount then
        some (.strE "BlockSubsidy: pool2 reward wrong")
      else if summay.totalOut > summay.totalIn then
        some (.strE "BlockSubsidy: totalOut greater than totalIn")
      else none

/-! ## checkConnectBlock (validate.go:1165-1392) -/

/-- Model of `MaxBlockSigOps(nBlockBytes)`: 20000 per begun megabyte. -/
def MaxBlockSigOps (nBlockBytes : Nat) : Int :=
  (1 + Int.tdiv ((nBlockBytes : Int) - 1) 1000000) * 20000

/-- Model of `SequenceLock`. -/
structure SequenceLock where
  seconds : Int
  blockHeight : Int
deriving Repr

/-- Model of `SequenceLockActive(sequenceLock, blockHeight, medianTimePast)`. -/
def SequenceLockActive (sequenceLock : SequenceLock) (blockHeight : Int)
    (medianTimePast : Int) : Bool :=
  ¬ (sequenceLock.seconds ≥ medianTimePast ∨ sequenceLock.blockHeight ≥ blockHeight)

/-- The per-transaction sigop loop of `checkConnectBlock` (the first
transaction is flagged as the coinbase; the flag set always contains
`ScriptBip16`). -/
def blockSigOpsLoop (env : ScriptEnv) (view : UtxoView) (maxSigOps : Int) :
    List MsgTx → Bool → Int → Option Err
  | [], _, _ => none
  | tx :: rest, isFirst, totalSigOpCost =>
    match GetSigOps env tx isFirst view true with
    | (_, some e) => some e
    | (sigOpCost, none) =>
      let newTotal := i64add totalSigOpCost sigOpCost
      if newTotal < totalSigOpCost ∨ newTotal > maxSigOps then some (.rule .ErrTooManySigOps)
      else blockSigOpsLoop env view maxSigOps rest false newTotal

/-- The fee-accumulation loop of `checkConnectBlock`. -/
def blockFeesLoop (env : ScriptEnv) (chainParams : ChainParams) (view : UtxoView)
    (nodeHeight : Int) : List MsgTx → Int → Except Err Int
  | [], totalFees => .ok totalFees
  | tx :: rest, totalFees =>
    match CheckTransactionInputs env chainParams tx nodeHeight view with
    | .error e => .error e
    | .ok txFee =>
      let newTotal := i64add totalFees txFee
      if newTotal < totalFees then .error (.rule .ErrBadFees)
      else blockFeesLoop env chainParams view nodeHeight rest newTotal

/-- The CSV sequence-lock loop of `checkConnectBlock`. -/
def csvSequenceLoop (calcSequenceLock : MsgTx → Except String SequenceLock)
    (nodeHeight medianTimePast : Int) : List MsgTx → Option Err
  | [] => none
  | tx :: rest =>
    match calcSequenceLock tx with
    | .error s => some (.ext s)
    | .ok sl =>
      if ¬ SequenceLockActive sl nodeHeight medianTimePast then
        some (.rule .ErrUnfinalizedTx)
      else csvSequenceLoop calcSequenceLock nodeHeight medianTimePast rest

/-- Everything `checkConnectBlock` reads: the embedded block data plus
the results of the external calls it makes, in source order. -/
structure ConnectArgs where
  env : ScriptEnv
  chainParams : ChainParams
  /-- Model of `node.hash.IsEqual(b.chainParams.GenesisHash)`. -/
  isGenesisBlock : Bool
  /-- Model of `node.height`. -/
  nodeHeight : Int
  /-- Model of `block.Transactions()`. -/
  blockTxs : List MsgTx
  /-- Model of `block.Height()` (consulted by `checkTxSequence`). -/
  blockHeight : Int
  /-- Model of `block.MsgBlock().SerializeSize()`. -/
  blockSerializeSize : Nat
  view : UtxoView
  /-- result of `view.addInputUtxos(b.utxoCache, block)`. -/
  addInputUtxosErr : Option String
  /-- result of `connectTransactions(view, block, stxos, false)`. -/
  connectTransactionsErr : Option String
  /-- result of `b.blockByHashAndHeight(&preHash, preHeight)`: the
  previous block's transactions, or a fetch error. -/
  preblockFetch : Except String (List MsgTx)
  /-- Model of `b.LatestCheckpoint()`: its height, if any. -/
  latestCheckpoint : Option Int
  /-- Model of `b.deploymentState(node.parent, DeploymentCSV)`: error, or
  whether the state is `ThresholdActive`. -/
  csvState : Except String Bool
  /-- Model of `b.calcSequenceLock(node, tx, view, false)` per transaction. -/
  calcSequenceLock : MsgTx → Except String SequenceLock
  /-- Model of `node.parent.CalcPastMedianTime()`. -/
  medianTimePast : Int
  /-- result of `checkBlockScripts(block, view, scriptFlags, ...)`. -/
  checkBlockScriptsErr : Option String

/-- The tail of `checkConnectBlock` after the subsidy accounting: CSV
deployment state, sequence locks, and script execution below the latest
checkpoint. -/
def connectTail (A : ConnectArgs) : Option Err :=
  match A.csvState with
  | .error s => some (.ext s)
  | .ok csvActive =>
    match (if csvActive then
             csvSequenceLoop A.calcSequenceLock A.nodeHeight A.medianTimePast A.blockTxs
           else none) with
    | some e => some e
    | none =>
      let runScripts :=
        match A.latestCheckpoint with
        | some checkpointHeight => decide (¬ A.nodeHeight ≤ checkpointHeight)
        | none => true
      if runScripts then
        match A.checkBlockScriptsErr with
        | some s => some (.ext s)
        | none => none
      else none

/-- Model of `checkConnectBlock(node, block, view, stxos)`.  Mirrors the source
control flow, including the `return nil` on a `connectTransactions`
failure and the `break` that restricts the coinbase-value check to
output 0. -/
def checkConnectBlock (A : ConnectArgs) : Option Err :=
  if A.isGenesisBlock then some (.rule .ErrMissingTxOut)
  else
    match A.addInputUtxosErr with
    | some s => some (.ext s)
    | none =>
      let maxSigOps := MaxBlockSigOps A.blockSerializeSize
      match blockSigOpsLoop A.env A.view maxSigOps A.blockTxs true 0 with
      | some e => some e
      | none =>
        match blockFeesLoop A.env A.chainParams A.view A.nodeHeight A.blockTxs 0 with
        | .error e => some e
        | .ok totalFees =>
          match checkTxSequence A.env A.chainParams A.blockTxs A.blockHeight A.view with
          | some e => some e
          | none =>
            match A.connectTransactionsErr with
            | some _ => none
            | none =>
              let totalSatoshiOut :=
                match A.blockTxs with
                | [] => 0
                | cb :: _ =>
                  match cb.txOut with
                  | [] => 0
                  | o :: _ => i64add 0 o.value
              let amountSubsidy := CalcBlockSubsidy A.nodeHeight A.chainParams
              let expectedSatoshiOut := i64add amountSubsidy totalFees
              if totalSatoshiOut > expectedSatoshiOut then some (.rule .ErrBadCoinbaseValue)
              else if A.nodeHeight - 1 > 0 then
                match A.preblockFetch with
                | .error _ => some (.rule .ErrPrevBlockNotBest)
                | .ok preblockTxs =>
                  match checkBlockSubsidy A.env A.chainParams A.blockTxs preblockTxs
                      A.nodeHeight A.view amountSubsidy with
                  | some e => some e
                  | none => connectTail A
              else connectTail A

/-! ## CheckBlockEntangle (validate.go:374-396) -/

/-- The inner maximum-height scan of `CheckBlockEntangle`
(`max := int64(0)`, heights cast from `uint64` to `int64`). -/
def einfosMaxHeight : List EntangleTxInfo → Int → Int
  | [], m => m
  | ii :: rest, m =>
    einfosMaxHeight rest (if m < i64ofU64 ii.height then i64ofU64 ii.height else m)

/-- Model of `CheckBlockEntangle(block)`.  `curHeight` is declared once, compared
against each entangle transaction's maximum height, and never
reassigned in the source; `checkEntangleTx` wraps the external
`VerifyEntangleTx` pipeline. -/
def CheckBlockEntangle (isEntangleTx : MsgTx → Option (List EntangleTxInfo))
    (checkEntangleTx : MsgTx → Option String) : List MsgTx → Int → Option Err
  | [], _ => none
  | tx :: rest, curHeight =>
    match isEntangleTx tx with
    | none => CheckBlockEntangle isEntangleTx checkEntangleTx rest curHeight
    | some einfos =>
      let mx := einfosMaxHeight einfos 0
      if curHeight > mx then some (.strE "unordered entangle tx in the block")
      else
        match checkEntangleTx tx with
        | some s => some (.ext s)
        | none => CheckBlockEntangle isEntangleTx checkEntangleTx rest curHeight

/-! ## Foreign-chain entangle verifiers (cross/verify.go) -/

/-- A raw foreign-chain transaction as returned by
`client.GetRawTransaction` (inputs carry their signature scripts). -/
structure ForeignTx where
  txIn : List (List Nat)
  txOut : List TxOut
deriving DecidableEq, Repr

/-- The foreign-chain RPC surface plus the txscript/czzutil helpers the
verifiers call.  Client selection from the RPC pool is uniform-random in
the source; a fixed client is modelled. -/
structure ForeignEnv where
  getRawTransaction : List Nat → Except String ForeignTx
  getScriptClass : List Nat → Nat
  extractPkScriptPub : List Nat → Except String (List Nat)
  /-- Model of `czzutil.NewLegacyAddressScriptHash(pub, params)` under the given
  `LegacyScriptHashAddrID`, rendered as the address string. -/
  newLegacyAddressScriptHash : List Nat → Nat → Except String String
  computePk : List Nat → Except String (List Nat)
  getBlockCount : Except String Int

/-- Outcome of a per-item verifier: the recovered depositor public key,
an error, or a Go index-out-of-range panic. -/
inductive VerifyRes where
  | ok : List Nat → VerifyRes
  | err : String → VerifyRes
  | outRange : VerifyRes
deriving DecidableEq, Repr

/-- Model of `dogePoolAddr`. -/
def dogePoolAddrS : String := "DNGzkoZbnVMihLTMq8M1m7L62XvN3d2cN2"

/-- Model of `ltcPoolAddr`. -/
def ltcPoolAddrS : String := "MUy9qiaLQtaqmKBSk27FXrEEfUkRBeddCZ"

/-- Model of `dogeMaturity`. -/
def dogeMaturityC : Int := 14

/-- Model of `ltcMaturity`. -/
def ltcMaturityC : Int := 14

/-- Model of `verifyDogeTx(ExtTxHash, Vout, Amount, height)`.  The bound check is
`len(tx.MsgTx().TxOut) < int(Vout)` in the source; `TxOut[Vout]` is then
indexed, so `Vout == len(TxOut)` reaches the out-of-range access. -/
def verifyDogeTx (env : ForeignEnv) (extTxHash : List Nat) (vout : Nat)
    (amount : Int) (height : Nat) : VerifyRes :=
  match env.getRawTransaction extTxHash with
  | .error e => .err e
  | .ok tx =>
    if tx.txOut.length < vout then .err "doge TxOut index err"
    else
      match tx.txOut.get? vout with
      | none => .outRange
      | some out =>
        if out.value ≠ amount then .err "amount err"
        else if env.getScriptClass out.pkScript ≠ 2 then .err "doge PkScript err"
        else
          match env.extractPkScriptPub out.pkScript with
          | .error e => .err e
          | .ok pub =>
            match env.newLegacyAddressScriptHash pub 0x1e with
            | .error _ => .err "doge Pool err"
            | .ok addr =>
              if addr ≠ dogePoolAddrS then .err "doge dogePoolPub err"
              else
                match tx.txIn.get? 0 with
                | none => .outRange
                | some sigScript0 =>
                  match env.computePk sigScript0 with
                  | .error _ => .err "doge PkScript err"
                  | .ok pk =>
                    match env.getBlockCount with
                    | .error e => .err e
                    | .ok count =>
                      if i64sub count (i64ofU64 height) > dogeMaturityC then .ok pk
                      else .err "dogeMaturity err"

/-- Model of `verifyLtcTx(ExtTxHash, Vout, Amount, height)`: same shape as the
Doge verifier with the Litecoin pool address and script-hash id. -/
def verifyLtcTx (env : ForeignEnv) (extTxHash : List Nat) (vout : Nat)
    (amount : Int) (height : Nat) : VerifyRes :=
  match env.getRawTransaction extTxHash with
  | .error e => .err e
  | .ok tx =>
    if tx.txOut.length < vout then .err "ltc TxOut index err"
    else
      match tx.txOut.get? vout with
      | none => .outRange
      | some out =>
        if out.value ≠ amount then .err "amount err"
        else if env.getScriptClass out.pkScript ≠ 2 then .err "ltc PkScript err"
        else
          match env.extractPkScriptPub out.pkScript with
          | .error e => .err e
          | .ok pub =>
            match env.newLegacyAddressScriptHash pub 0x32 with
            | .error _ => .err "ltcaddr err"
            | .ok addr =>
              if addr ≠ ltcPoolAddrS then .err "ltc ltcPoolAddr err"
              else
                match tx.txIn.get? 0 with
                | none => .outRange
                | some sigScript0 =>
                  match env.computePk sigScript0 with
                  | .error _ => .err "ltc PkScript err"
                  | .ok pk =>
                    match env.getBlockCount with
                    | .error e => .err e
                    | .ok count =>
                      if i64sub count (i64ofU64 height) > ltcMaturityC then .ok pk
                      else .err "ltcMaturity err"

/-! ## Spec-side definitions (refinement targets, written from the
claim's words, to be compared with the source embeddings) -/

/-- The 23-bit mantissa window of `n` at its byte-length exponent, per
the spec's description of the compact encoding: the top three bytes of
`n` (left-padded when `n` is at most three bytes long). -/
def specMantissaWindow (n : Nat) : Nat :=
  if byteLen n ≤ 3 then n <<< (8 * (3 - byteLen n)) else n >>> (8 * (byteLen n - 3))

/-- Model of `n` truncated to its 23 most significant mantissa bits, per the
spec: exact when the mantissa window stays below the sign bit, and with
all lower-order bits beyond the encoded mantissa zeroed otherwise
(dropping one extra byte when the window's top bit would collide with
the sign bit). -/
def specTruncate23 (n : Nat) : Nat :=
  if specMantissaWindow n < 2 ^ 23 then
    (n >>> (8 * (byteLen n - 3))) <<< (8 * (byteLen n - 3))
  else
    (n >>> (8 * (byteLen n - 2))) <<< (8 * (byteLen n - 2))

/-- The spec's difficulty formula (section 4.4): `x = max(1 - Δt//30,
-99)`, `newD = diff + diff*x//128`, target `(2^256 - newD)/newD`
clipped to the pow limit, compact-encoded. -/
def specNextDifficulty (powLimit : Int) (diff : Int) (parentTime newBlockTime : Int) : Nat :=
  let x := max (1 - Int.ediv (newBlockTime - parentTime) 30) (-99)
  let newD := diff + Int.ediv (diff * x) 128
  BigToCompact (min powLimit (Int.ediv (2 ^ 256 - newD) newD))

/-! ## Shared concrete instances used by witnesses -/

/-- A concrete script environment for closed evaluations. -/
def envW : ScriptEnv where
  getSigOpCount := fun _ => 1
  isPayToScriptHash := fun _ => true
  getPreciseSigOpCount := fun _ _ => 0
  txSerializeSize := fun _ => 150
  matchPool := fun _ => none
  isEntangleTx := fun _ => none
  parseKeeped := fun _ => .ok ⟨0, []⟩
  addKeeped := fun k _ => k
  preCalcEntangleAmount := fun _ v k => (v, k)
  verifyTxsSequence := fun _ => none

/-- The empty utxo view. -/
def viewNone : UtxoView := fun _ => none

/-! ## Theorems -/

/-- Helper: `i64` is the identity on values already in `int64` range. -/
theorem i64_eq_self (x : Int) (h1 : -(2 ^ 63) ≤ x) (h2 : x < 2 ^ 63) : i64 x = x := by
  unfold i64
  rw [Int.emod_eq_of_lt (by omega) (by omega)]
  omega

/-- C3.  With a positive reduction interval and at least one elapsed
halving interval, `CalcBlockSubsidy` is integer division of the base
subsidy by the halving count, floored at 1 — and at three halvings it
differs from the documented bit shift `baseSubsidy >> halvings`. -/
theorem calcBlockSubsidy_eq_div_halvings (h : Int) (p : ChainParams)
    (hI : 0 < p.subsidyReductionInterval) (hh : 0 ≤ h) (hh32 : h < 2 ^ 31)
    (hq : 1 ≤ Int.tdiv h p.subsidyReductionInterval) :
    CalcBlockSubsidy h p =
      max 1 ((baseSubsidy / (Int.tdiv h p.subsidyReductionInterval).toNat : Nat) : Int) ∧
    1 ≤ CalcBlockSubsidy h p ∧
    CalcBlockSubsidy 3 ⟨0, 1, 0, 0, 0, false⟩ ≠ ((baseSubsidy >>> 3 : Nat) : Int) := by
  have hIne : p.subsidyReductionInterval ≠ 0 := by omega
  have hq0 : 0 ≤ Int.tdiv h p.subsidyReductionInterval := by omega
  have hqh : Int.tdiv h p.subsidyReductionInterval ≤ h := by
    rw [Int.tdiv_eq_ediv hh (by omega)]
    exact Int.ediv_le_self _ hh
  have hmod : Int.tdiv h p.subsidyReductionInterval % (2 ^ 64 : Int) =
      Int.tdiv h p.subsidyReductionInterval :=
    Int.emod_eq_of_lt hq0 (by omega)
  have hne : (Int.tdiv h p.subsidyReductionInterval).toNat ≠ 0 := by omega
  refine ⟨?_, ?_, ?_⟩
  · simp only [CalcBlockSubsidy, hIne, if_false, hmod, hne, ite_false]
    rcases Nat.eq_zero_or_pos (baseSubsidy / (Int.tdiv h p.subsidyReductionInterval).toNat) with
      h0 | hpos
    · simp [h0]
    · have : ((baseSubsidy / (Int.tdiv h p.subsidyReductionInterval).toNat : Nat) : Int) ≠ 0 := by
        omega
      simp only [this, ite_false]
      omega
  · simp only [CalcBlockSubsidy, hIne, if_false, hmod, hne, ite_false]
    rcases Nat.eq_zero_or_pos (baseSubsidy / (Int.tdiv h p.subsidyReductionInterval).toNat) with
      h0 | hpos
    · simp [h0]
    · have : ((baseSubsidy / (Int.tdiv h p.subsidyReductionInterval).toNat : Nat) : Int) ≠ 0 := by
        omega
      simp only [this, ite_false]
      omega
  · decide

/-- C3 witness: height 5 with interval 2 gives two halvings, hence
`baseSubsidy / 2`. -/
theorem calcBlockSubsidy_eq_div_halvings_witness :
    CalcBlockSubsidy 5 ⟨0, 2, 0, 0, 0, false⟩ = max 1 ((baseSubsidy / 2 : Nat) : Int) ∧
    1 ≤ CalcBlockSubsidy 5 ⟨0, 2, 0, 0, 0, false⟩ := by
  have h := calcBlockSubsidy_eq_div_halvings 5 ⟨0, 2, 0, 0, 0, false⟩
    (by norm_num) (by norm_num) (by norm_num) (by decide)
  exact ⟨by rw [h.1]; decide, h.2.1⟩

/-- C10.  `GetSigOps` never reports an error, and whenever the precise
P2SH count fails (with the BIP16 flag set, as `checkConnectBlock`
always sets it), the transaction is charged zero sigops and the failure
is discarded. -/
theorem getSigOps_never_errors (env : ScriptEnv) (tx : MsgTx) (isCB : Bool)
    (view : UtxoView) (bip16 : Bool) :
    (GetSigOps env tx isCB view bip16).2 = none ∧
    ∀ e, CountP2SHSigOps env tx isCB view = .error e →
      GetSigOps env tx isCB view true = (0, none) := by
  constructor
  · unfold GetSigOps
    rcases bip16
    · simp
    · simp only [if_true]
      rcases hc : CountP2SHSigOps env tx isCB view with e | k <;> simp
  · intro e he
    unfold GetSigOps
    rw [if_pos rfl, he]

/-- C10 witness: a non-coinbase transaction whose only input references
a missing utxo — the precise count fails with `ErrMissingTxOut`, and
`GetSigOps` returns `(0, nil)`. -/
theorem getSigOps_never_errors_witness :
    GetSigOps envW ⟨[⟨⟨1, 0⟩, [], 0⟩], [⟨5, []⟩], 0⟩ false viewNone true = (0, none) :=
  (getSigOps_never_errors envW ⟨[⟨⟨1, 0⟩, [], 0⟩], [⟨5, []⟩], 0⟩ false viewNone true).2
    (.rule .ErrMissingTxOut) rfl

/-- A concrete foreign-chain environment whose `GetRawTransaction`
returns a transaction with exactly one output. -/
def foreignEnvW : ForeignEnv where
  getRawTransaction := fun _ => .ok ⟨[[0]], [⟨5, []⟩]⟩
  getScriptClass := fun _ => 2
  extractPkScriptPub := fun _ => .ok []
  newLegacyAddressScriptHash := fun _ _ => .ok dogePoolAddrS
  computePk := fun _ => .ok []
  getBlockCount := .ok 1000000

/-- C5.  With a foreign transaction of exactly one output, an entangle
item with `vout = 1` (one past the end) passes the `len(TxOut) < Vout`
guard in both verifiers and reaches the out-of-range access of
`TxOut[Vout]`; only `vout = 2` and beyond are rejected with the index
error. -/
theorem verifyDogeLtcTx_vout_out_of_range :
    verifyDogeTx foreignEnvW [1] 1 5 100 = .outRange ∧
    verifyLtcTx foreignEnvW [1] 1 5 100 = .outRange ∧
    verifyDogeTx foreignEnvW [1] 2 5 100 = .err "doge TxOut index err" ∧
    verifyLtcTx foreignEnvW [1] 2 5 100 = .err "ltc TxOut index err" :=
  ⟨rfl, rfl, rfl, rfl⟩

/-- Helper for C2: the maximum-height scan never drops below a
non-negative accumulator. -/
theorem einfosMaxHeight_nonneg (l : List EntangleTxInfo) (m : Int) (hm : 0 ≤ m) :
    0 ≤ einfosMaxHeight l m := by
  induction l generalizing m with
  | nil => simpa [einfosMaxHeight]
  | cons ii rest ih =>
    rw [einfosMaxHeight]
    apply ih
    rcases h : decide (m < i64ofU64 ii.height) with hv | hv <;> simp_all <;> omega

/-- Helper for C2: starting from the source's initial `curHeight = 0`,
the "unordered entangle tx in the block" error is unreachable
(`curHeight` is never reassigned, and each maximum is non-negative). -/
theorem checkBlockEntangle_no_unordered (isE : MsgTx → Option (List EntangleTxInfo))
    (chk : MsgTx → Option String) (txs : List MsgTx) :
    CheckBlockEntangle isE chk txs 0 ≠ some (.strE "unordered entangle tx in the block") := by
  induction txs with
  | nil => simp [CheckBlockEntangle]
  | cons tx rest ih =>
    rw [CheckBlockEntangle]
    rcases isE tx with _ | einfos
    · simpa using ih
    · simp only []
      have hmax : 0 ≤ einfosMaxHeight einfos 0 := einfosMaxHeight_nonneg einfos 0 le_rfl
      rw [if_neg (by omega)]
      rcases chk tx with _ | s
      · simpa using ih
      · simp

/-- C2.  A block whose first entangle transaction has maximum height 5
and whose second has maximum height 3 — strictly decreasing — passes
`CheckBlockEntangle` without the ordering error (the verifier accepts
both), because `curHeight` is never updated from 0; in general no block
can produce the "unordered entangle tx in the block" error. -/
theorem checkBlockEntangle_unordered_unreachable :
    CheckBlockEntangle
      (fun tx => if tx.lockTime = 1 then some [⟨240, 0, 5, 20, [1]⟩]
                 else if tx.lockTime = 2 then some [⟨240, 0, 3, 20, [2]⟩] else none)
      (fun _ => none)
      [⟨[], [], 1⟩, ⟨[], [], 2⟩] 0 = none ∧
    ∀ (isE : MsgTx → Option (List EntangleTxInfo)) (chk : MsgTx → Option String)
      (txs : List MsgTx),
      CheckBlockEntangle isE chk txs 0 ≠
        some (.strE "unordered entangle tx in the block") :=
  ⟨rfl, checkBlockEntangle_no_unordered⟩

/-- C7.  At height exactly `EntangleHeight`, `checkBlockSubsidy`
returns success immediately (the `txHeight <= EntangleHeight` guard),
for every block, previous block, view and subsidy: the catch-up
amounts `a1·(EntangleHeight-1)`, `a2·(EntangleHeight-1)` computed in
the dead `txHeight == EntangleHeight` branch are never enforced. -/
theorem checkBlockSubsidy_entangle_height_skipped (env : ScriptEnv)
    (p : ChainParams) (blockTxs preblockTxs : List MsgTx) (view : UtxoView)
    (amountSubsidy : Int) :
    checkBlockSubsidy env p blockTxs preblockTxs p.entangleHeight view amountSubsidy = none := by
  unfold checkBlockSubsidy
  rw [if_pos le_rfl]

/-- Chain parameters with entangle activation at height 1000, no
subsidy reduction. -/
def chainParamsW : ChainParams := ⟨1000, 0, 100, 2 ^ 224, 0x1d00ffff, false⟩

/-- Concrete `checkConnectBlock` arguments: a block at height 1 whose
single transaction is a well-formed pre-entangle coinbase paying
`out0`, with the given `connectTransactions` outcome. -/
def connectArgsW (connectErr : Option String) (out0 : Int) : ConnectArgs where
  env := envW
  chainParams := chainParamsW
  isGenesisBlock := false
  nodeHeight := 1
  blockTxs := [⟨[⟨⟨0, 4294967295⟩, [81], 0⟩], [⟨out0, []⟩], 0⟩]
  blockHeight := 1
  blockSerializeSize := 200
  view := viewNone
  addInputUtxosErr := none
  connectTransactionsErr := connectErr
  preblockFetch := .error "not found"
  latestCheckpoint := none
  csvState := .ok false
  calcSequenceLock := fun _ => .ok ⟨0, 0⟩
  medianTimePast := 0
  checkBlockScriptsErr := none

/-- C1.  When every step up to transaction connection passes and
`connectTransactions` fails, `checkConnectBlock` returns success
(`return nil` in the source): the coinbase-value, subsidy and script
checks that follow are skipped for every such block. -/
theorem connectTransactions_failure_returns_nil (A : ConnectArgs) (e : String) (F : Int)
    (hg : A.isGenesisBlock = false)
    (ha : A.addInputUtxosErr = none)
    (hs : blockSigOpsLoop A.env A.view (MaxBlockSigOps A.blockSerializeSize)
      A.blockTxs true 0 = none)
    (hf : blockFeesLoop A.env A.chainParams A.view A.nodeHeight A.blockTxs 0 = .ok F)
    (ht : checkTxSequence A.env A.chainParams A.blockTxs A.blockHeight A.view = none)
    (hc : A.connectTransactionsErr = some e) :
    checkConnectBlock A = none := by
  simp [checkConnectBlock, hg, ha, hs, hf, ht, hc]

/-- C1 witness: with transaction connection failing, even a block whose
coinbase output 0 pays `10^18` (far above subsidy plus fees) is
accepted. -/
theorem connectTransactions_failure_returns_nil_witness :
    checkConnectBlock (connectArgsW (some "connect failed") 1000000000000000000) = none :=
  connectTransactions_failure_returns_nil _ "connect failed" 0 rfl rfl rfl rfl rfl rfl

/-- Helper: errors of the summay input scan are always
`ErrMissingTxOut`. -/
theorem summayInputsFold_err (view : UtxoView) (l : List TxIn) (t : Int) (e : Err)
    (h : summayInputsFold view l t = .error e) : e = .rule .ErrMissingTxOut := by
  induction l generalizing t with
  | nil => simp [summayInputsFold] at h
  | cons ti rest ih =>
    rw [summayInputsFold] at h
    rcases hv : view ti.previousOutPoint with _ | u <;> rw [hv] at h
    · cases h; rfl
    · exact ih _ h

/-- Helper: errors of the summay transaction loop are always
`ErrMissingTxOut`. -/
theorem summayLoop_err (env : ScriptEnv) (view : UtxoView) (txs : List MsgTx)
    (i : Nat) (st : SummayState) (e : Err)
    (h : summayLoop env view txs i st = .error e) : e = .rule .ErrMissingTxOut := by
  induction txs generalizing i st with
  | nil => simp [summayLoop] at h
  | cons tx rest ih =>
    rw [summayLoop] at h
    by_cases hi : i = 0
    · rw [if_pos hi] at h
      exact ih _ _ h
    · rw [if_neg hi] at h
      rcases hf : summayInputsFold view tx.txIn
          (match env.isEntangleTx tx with
           | some einfos =>
             { st with
               keepInfo := (handleSummayEntangle env einfos st.keepInfo st.keepedInBlock st.entangleAmount).1,
               keepedInBlock := (handleSummayEntangle env einfos st.keepInfo st.keepedInBlock st.entangleAmount).2.1,
               entangleAmount := (handleSummayEntangle env einfos st.keepInfo st.keepedInBlock st.entangleAmount).2.2 }
           | none => st).totalIn with ferr | t1
      all_goals rcases he : env.isEntangleTx tx with _ | einfos <;> rw [he] at h hf <;>
        simp only [] at h <;> rw [hf] at h
      · cases h; exact summayInputsFold_err _ _ _ _ hf
      · cases h; exact summayInputsFold_err _ _ _ _ hf
      · exact ih _ _ h
      · exact ih _ _ h

/-- Helper: no error reachable from `summayOfTxsAndCheck` is the
`ErrBadCoinbaseValue` rule error. -/
theorem summayOfTxsAndCheck_err (env : ScriptEnv) (pre blk : List MsgTx)
    (view : UtxoView) (s p1 p2 : Int) (e : Err)
    (h : summayOfTxsAndCheck env pre blk view s p1 p2 = .error e) :
    e ≠ .rule .ErrBadCoinbaseValue := by
  rw [summayOfTxsAndCheck] at h
  rcases hk : getKeepedAmountFormPreBlock env pre with ek | k <;>
    rw [hk] at h <;> simp only [] at h
  · cases h
    rw [getKeepedAmountFormPreBlock] at hk
    rcases hp : pre.head? with _ | cb <;> rw [hp] at hk <;> simp only [] at hk
    · cases hk
    · rcases ho : cb.txOut.get? 3 with _ | o3 <;> rw [ho] at hk <;> simp only [] at hk
      · cases hk
      · rcases hpk : env.parseKeeped o3.pkScript with s' | k' <;> rw [hpk] at hk <;>
          simp only [] at hk
        · cases hk; simp
        · cases hk
  · rcases hp : getPoolAmountFromPreBlock pre with ep | lp <;>
      rw [hp] at h <;> simp only [] at h
    · cases h
      rw [getPoolAmountFromPreBlock] at hp
      rcases hh : pre.head? with _ | cb <;> rw [hh] at hp <;> simp only [] at hp
      · cases hp; simp
      · rcases h1 : cb.txOut.get? 1 with _ | o1 <;> rcases h2 : cb.txOut.get? 2 with _ | o2 <;>
          rw [h1, h2] at hp <;> simp only [] at hp <;> cases hp <;> simp
    · rcases hl : summayLoop env view blk 0
          ⟨k, ⟨0, []⟩, 0, 0, 0, 0,
           i64add (i64add (i64add (i64add lp.1 lp.2) p1) p2) s, 0⟩ with el | st <;>
        rw [hl] at h <;> simp only [] at h
      · cases h
        rw [summayLoop_err _ _ _ _ _ _ hl]
        simp
      · by_cases hm : st.amount1 = st.entangleAmount
        · rw [if_neg (by simp [hm])] at h
          cases h
        · rw [if_pos (by simpa using hm)] at h
          cases h; simp

/-- Helper: an error produced by a three-way cascade of string-error
branches is never a rule error. -/
theorem ite_strE_err (c1 c2 c3 : Prop) [Decidable c1] [Decidable c2] [Decidable c3]
    (s1 s2 s3 : String) (e : Err)
    (h : (if c1 then some (.strE s1)
          else if c2 then some (.strE s2)
          else if c3 then some (.strE s3)
          else none) = some e) :
    e ≠ .rule .ErrBadCoinbaseValue := by
  by_cases h1 : c1 <;> by_cases h2 : c2 <;> by_cases h3 : c3 <;> simp_all <;>
    subst h <;> simp

/-- Helper: no error reachable from `checkBlockSubsidy` is the
`ErrBadCoinbaseValue` rule error. -/
theorem checkBlockSubsidy_err (env : ScriptEnv) (p : ChainParams)
    (blk pre : List MsgTx) (txH : Int) (view : UtxoView) (s : Int) (e : Err)
    (h : checkBlockSubsidy env p blk pre txH view s = some e) :
    e ≠ .rule .ErrBadCoinbaseValue := by
  rw [checkBlockSubsidy] at h
  by_cases hle : txH ≤ p.entangleHeight
  · rw [if_pos hle] at h; cases h
  · rw [if_neg hle] at h
    simp only [] at h
    rcases hs : summayOfTxsAndCheck env pre blk view
        (i64sub (i64sub s (Int.tdiv (i64mul s 19) 100)) (Int.tdiv s 100))
        (if txH = p.entangleHeight then
           (i64mul (Int.tdiv (i64mul s 19) 100) (p.entangleHeight - 1),
            i64mul (Int.tdiv s 100) (p.entangleHeight - 1))
         else (Int.tdiv (i64mul s 19) 100, Int.tdiv s 100)).1
        (if txH = p.entangleHeight then
           (i64mul (Int.tdiv (i64mul s 19) 100) (p.entangleHeight - 1),
            i64mul (Int.tdiv s 100) (p.entangleHeight - 1))
         else (Int.tdiv (i64mul s 19) 100, Int.tdiv s 100)).2 with es | sm <;>
      rw [hs] at h <;> simp only [] at h
    · cases h
      exact summayOfTxsAndCheck_err _ _ _ _ _ _ _ _ hs
    · exact ite_strE_err _ _ _ _ _ _ _ h

/-- Helper: the CSV sequence-lock loop reports only external errors and
`ErrUnfinalizedTx`. -/
theorem csvSequenceLoop_err (f : MsgTx → Except String SequenceLock) (nh mt : Int)
    (txs : List MsgTx) (e : Err)
    (h : csvSequenceLoop f nh mt txs = some e) : e ≠ .rule .ErrBadCoinbaseValue := by
  induction txs with
  | nil => simp [csvSequenceLoop] at h
  | cons tx rest ih =>
    rw [csvSequenceLoop] at h
    rcases hf : f tx with s | sl <;> rw [hf] at h <;> simp only [] at h
    · cases h; simp
    · by_cases ha : SequenceLockActive sl nh mt = true
      · rw [if_neg (by simp [ha])] at h
        exact ih h
      · rw [if_pos (by simpa using ha)] at h
        cases h; simp

/-- Helper: no error reachable from the post-subsidy tail of
`checkConnectBlock` is the `ErrBadCoinbaseValue` rule error. -/
theorem connectTail_err (A : ConnectArgs) (e : Err)
    (h : connectTail A = some e) : e ≠ .rule .ErrBadCoinbaseValue := by
  rw [connectTail] at h
  rcases hc : A.csvState with s | csvActive <;> rw [hc] at h <;> simp only [] at h
  · cases h; simp
  · rcases hl : (if csvActive then
        csvSequenceLoop A.calcSequenceLock A.nodeHeight A.medianTimePast A.blockTxs
      else none) with _ | el <;> rw [hl] at h <;> (try simp only [] at h)
    · by_cases hr : (match A.latestCheckpoint with
        | some checkpointHeight => decide (¬ A.nodeHeight ≤ checkpointHeight)
        | none => true) = true
      · rw [if_pos hr] at h
        rcases hb : A.checkBlockScriptsErr with _ | s <;> rw [hb] at h <;>
          (try simp only [] at h)
        · cases h
        · cases h; simp
      · rw [if_neg hr] at h
        cases h
    · cases h
      rcases hcsv : csvActive with _ | _ <;> rw [hcsv] at hl <;> (try simp only [] at hl)
      · cases hl
      · exact csvSequenceLoop_err _ _ _ _ _ hl

/-- Helper: the block subsidy is between 1 and the base subsidy. -/
theorem calcBlockSubsidy_bounds (h : Int) (p : ChainParams) :
    1 ≤ CalcBlockSubsidy h p ∧ CalcBlockSubsidy h p ≤ (baseSubsidy : Int) := by
  unfold CalcBlockSubsidy
  by_cases h0 : p.subsidyReductionInterval = 0
  · rw [if_pos h0]
    constructor <;> norm_num [baseSubsidy, satoshiPerBitcoin]
  · rw [if_neg h0]
    simp only []
    by_cases h1 : (Int.tdiv h p.subsidyReductionInterval % (2 ^ 64 : Int)).toNat = 0
    · rw [if_pos h1]
      constructor <;> norm_num [baseSubsidy, satoshiPerBitcoin]
    · rw [if_neg h1]
      by_cases h2 : ((baseSubsidy / (Int.tdiv h p.subsidyReductionInterval % (2 ^ 64 : Int)).toNat : Nat) : Int) = 0
      · rw [if_pos h2]
        constructor
        · exact le_refl 1
        · norm_num [baseSubsidy, satoshiPerBitcoin]
      · rw [if_neg h2]
        have hle := Nat.div_le_self baseSubsidy
          (Int.tdiv h p.subsidyReductionInterval % (2 ^ 64 : Int)).toNat
        have h0' : (0 : Int) ≤
            ((baseSubsidy / (Int.tdiv h p.subsidyReductionInterval % (2 ^ 64 : Int)).toNat : Nat) : Int) :=
          Int.natCast_nonneg _
        constructor
        · exact Int.lt_iff_add_one_le.mp (lt_of_le_of_ne h0' (Ne.symm h2))
        · exact_mod_cast hle

/-- C6.  When `checkConnectBlock` reaches the coinbase-value check (all
prior steps pass and `connectTransactions` succeeds), the block is
rejected with `ErrBadCoinbaseValue` exactly when the coinbase's output
0 exceeds subsidy plus fees; the remaining coinbase outputs (`outs`)
are not counted (the loop `break`s after output 0). -/
theorem coinbase_value_check (A : ConnectArgs) (F : Int)
    (cbIns : List TxIn) (o0 : TxOut) (outs : List TxOut) (lt : Nat) (restTxs : List MsgTx)
    (hg : A.isGenesisBlock = false)
    (ha : A.addInputUtxosErr = none)
    (hs : blockSigOpsLoop A.env A.view (MaxBlockSigOps A.blockSerializeSize)
      A.blockTxs true 0 = none)
    (hf : blockFeesLoop A.env A.chainParams A.view A.nodeHeight A.blockTxs 0 = .ok F)
    (ht : checkTxSequence A.env A.chainParams A.blockTxs A.blockHeight A.view = none)
    (hc : A.connectTransactionsErr = none)
    (hb : A.blockTxs = ⟨cbIns, o0 :: outs, lt⟩ :: restTxs)
    (hv0 : 0 ≤ o0.value) (hv1 : o0.value ≤ maxSatoshi)
    (hF0 : 0 ≤ F) (hF1 : F ≤ maxSatoshi) :
    checkConnectBlock A = some (.rule .ErrBadCoinbaseValue) ↔
      o0.value > CalcBlockSubsidy A.nodeHeight A.chainParams + F := by
  have hSlo := (calcBlockSubsidy_bounds A.nodeHeight A.chainParams).1
  have hShi := (calcBlockSubsidy_bounds A.nodeHeight A.chainParams).2
  have hbase : (baseSubsidy : Int) = 100000000000 := by
    norm_num [baseSubsidy, satoshiPerBitcoin]
  have hmax : maxSatoshi = 2100000000000000 := by
    norm_num [maxSatoshi, satoshiPerBitcoin]
  have hout : i64add 0 o0.value = o0.value := by
    unfold i64add
    rw [zero_add]
    apply i64_eq_self <;> omega
  have hexp : i64add (CalcBlockSubsidy A.nodeHeight A.chainParams) F =
      CalcBlockSubsidy A.nodeHeight A.chainParams + F := by
    unfold i64add
    apply i64_eq_self <;> omega
  rw [checkConnectBlock, hg]
  simp only [Bool.false_eq_true, if_false, ha, hs, hf, ht, hc]
  simp only [hb]
  simp only [hout, hexp]
  by_cases hgt : o0.value > CalcBlockSubsidy A.nodeHeight A.chainParams + F
  · rw [if_pos hgt]
    simp [hgt]
  · rw [if_neg hgt]
    simp only [hgt, iff_false]
    intro hcon
    rw [← hb] at hcon
    by_cases hh : A.nodeHeight - 1 > 0
    · rw [if_pos hh] at hcon
      rcases hp : A.preblockFetch with s | pre <;> rw [hp] at hcon <;>
        (try simp only [] at hcon)
      · simp at hcon
      · rcases hcb : checkBlockSubsidy A.env A.chainParams A.blockTxs pre A.nodeHeight
            A.view (CalcBlockSubsidy A.nodeHeight A.chainParams) with _ | e <;>
          rw [hcb] at hcon <;> (try simp only [] at hcon)
        · exact connectTail_err A _ hcon rfl
        · have he : e = .rule .ErrBadCoinbaseValue := by
            injection hcon
          exact checkBlockSubsidy_err _ _ _ _ _ _ _ _ hcb he
    · rw [if_neg hh] at hcon
      exact connectTail_err A _ hcon rfl

/-- C6 witness: at height 1 with no subsidy reduction the subsidy is
`baseSubsidy = 10^11` and fees are 0; a coinbase whose output 0 pays
`10^11 + 1` is rejected with `ErrBadCoinbaseValue`. -/
theorem coinbase_value_check_witness :
    checkConnectBlock (connectArgsW none 100000000001) =
      some (.rule .ErrBadCoinbaseValue) := by
  rw [coinbase_value_check (connectArgsW none 100000000001) 0
    [⟨⟨0, 4294967295⟩, [81], 0⟩] ⟨100000000001, []⟩ [] 0 []
    rfl rfl rfl rfl rfl rfl rfl (by norm_num) (by norm_num [maxSatoshi, satoshiPerBitcoin])
    le_rfl (by norm_num [maxSatoshi, satoshiPerBitcoin])]
  decide

/-- C8 counterexample: a transaction with two inputs sharing the same
outpoint but no outputs fails with `ErrNoTxOutputs`, not
`ErrDuplicateTxInputs` — the duplicate-input check does not override
the earlier sanity checks. -/
theorem checkTransactionSanity_duplicate_not_first :
    hasDuplicateInputs (MsgTx.txIn ⟨[⟨⟨1, 0⟩, [], 0⟩, ⟨⟨1, 0⟩, [], 0⟩], [], 0⟩) [] = true ∧
    CheckTransactionSanity envW 1000 ⟨[⟨⟨1, 0⟩, [], 0⟩, ⟨⟨1, 0⟩, [], 0⟩], [], 0⟩ false =
      some (.rule .ErrNoTxOutputs) ∧
    some (Err.rule .ErrNoTxOutputs) ≠ some (Err.rule .ErrDuplicateTxInputs) :=
  ⟨rfl, rfl, by decide⟩

/-- C8 (amended).  A transaction with two inputs sharing the same
previous outpoint is rejected with `ErrDuplicateTxInputs`, provided it
passes the sanity checks that run first: it has at least one output, is
within the size bounds, within the sigop bound, and its output values
pass the range checks. -/
theorem checkTransactionSanity_duplicate_inputs (env : ScriptEnv) (mEH : Int)
    (tx : MsgTx) (mag : Bool)
    (h1 : tx.txOut.length ≠ 0)
    (h2 : ¬ env.txSerializeSize tx > MaxTransactionSize)
    (h3 : ¬ (mag = true ∧ env.txSerializeSize tx < MinTransactionSize))
    (h4 : ¬ CountSigOps env tx > MaxTransactionSigOps)
    (h5 : checkTxOutValues tx.txOut 0 = none)
    (h6 : hasDuplicateInputs tx.txIn [] = true) :
    CheckTransactionSanity env mEH tx mag = some (.rule .ErrDuplicateTxInputs) := by
  have h0 : ¬ tx.txIn.length = 0 := by
    intro hlen
    cases htxi : tx.txIn with
    | nil => rw [htxi] at h6; simp [hasDuplicateInputs] at h6
    | cons a l => rw [htxi] at hlen; simp at hlen
  unfold CheckTransactionSanity
  rw [if_neg h0, if_neg h1]
  simp only []
  rw [if_neg h2, if_neg h3, if_neg h4, h5]
  simp only []
  rw [if_pos h6]

/-- C8 witness: the same duplicate-input transaction with one in-range
output is rejected with `ErrDuplicateTxInputs`. -/
theorem checkTransactionSanity_duplicate_inputs_witness :
    CheckTransactionSanity envW 1000 ⟨[⟨⟨1, 0⟩, [], 0⟩, ⟨⟨1, 0⟩, [], 0⟩], [⟨5, []⟩], 0⟩ false =
      some (.rule .ErrDuplicateTxInputs) :=
  checkTransactionSanity_duplicate_inputs envW 1000
    ⟨[⟨⟨1, 0⟩, [], 0⟩, ⟨⟨1, 0⟩, [], 0⟩], [⟨5, []⟩], 0⟩ false
    (by decide) (by decide) (by decide) (by decide) rfl rfl

/-- C4.  For a non-genesis parent on a chain with difficulty adjustment
enabled, `calcNextRequiredDifficulty` is exactly the spec formula
`big_to_compact(min(pow_limit, (2^256 - newD)/newD))` with
`x = max(1 - Δt//30, -99)`, `diff` the parent's work increment (its
work sum at height 0), and `newD = diff + (diff*x)//128`; and at
`Δt = 30 s` the new difficulty equals the parent difficulty. -/
theorem calcNextRequiredDifficulty_spec (eH sri cm pl : Int) (plb : Nat)
    (nd : BlockNode) (t : Int) :
    calcNextRequiredDifficulty ⟨eH, sri, cm, pl, plb, false⟩ (some nd) t =
      specNextDifficulty pl
        (if nd.height ≠ 0 then nd.workSum - nd.ancestorWorkSum else nd.workSum)
        nd.timestamp t ∧
    calcNextRequiredDifficulty ⟨eH, sri, cm, pl, plb, false⟩ (some nd) (nd.timestamp + 30) =
      BigToCompact (min pl (Int.ediv
        (2 ^ 256 - (if nd.height ≠ 0 then nd.workSum - nd.ancestorWorkSum else nd.workSum))
        (if nd.height ≠ 0 then nd.workSum - nd.ancestorWorkSum else nd.workSum))) := by
  have hmax : ∀ x2 : Int, (if x2 < -99 then -99 else x2) = max x2 (-99) := by
    intro x2
    by_cases h : x2 < -99
    · rw [if_pos h, max_eq_right h.le]
    · rw [if_neg h, max_eq_left (not_lt.mp h)]
  have hmin : ∀ a b : Int, (if a > b then b else a) = min b a := by
    intro a b
    by_cases h : a > b
    · rw [if_pos h, min_eq_left h.le]
    · rw [if_neg h, min_eq_right (not_lt.mp h)]
  constructor
  · unfold calcNextRequiredDifficulty specNextDifficulty
    simp only [hmax, hmin, DifficultyBoundDivisor]
    rw [max_comm]
    simp
  · unfold calcNextRequiredDifficulty
    have h30 : nd.timestamp + 30 - nd.timestamp = 30 := by ring
    simp only [h30, DifficultyBoundDivisor]
    have h1 : Int.ediv 30 30 = 1 := by decide
    rw [h1]
    norm_num
    rw [hmin]

/-! ### Compact-codec roundtrip (C9) -/

/-- Helper: a nonzero number has at least one byte. -/
theorem byteLen_pos {n : Nat} (h : n ≠ 0) : 1 ≤ byteLen n := by
  unfold byteLen
  rw [if_neg h]
  omega

/-- Helper: `n` fits into `byteLen n` bytes. -/
theorem lt_two_pow_mul_byteLen (n : Nat) : n < 2 ^ (8 * byteLen n) := by
  unfold byteLen
  by_cases h : n = 0
  · simp [h]
  · rw [if_neg h]
    have hlog := Nat.lt_log2_self (n := n)
    have hle : n.log2 + 1 ≤ 8 * (n.log2 / 8 + 1) := by omega
    exact lt_of_lt_of_le hlog (Nat.pow_le_pow_right (by norm_num) hle)

/-- Helper: `n` does not fit into `byteLen n - 1` bytes. -/
theorem two_pow_byteLen_pred_le {n : Nat} (h : n ≠ 0) : 2 ^ (8 * (byteLen n - 1)) ≤ n := by
  unfold byteLen
  rw [if_neg h]
  have hlog := Nat.log2_self_le h
  have hle : 8 * (n.log2 / 8 + 1 - 1) ≤ n.log2 := by omega
  exact le_trans (Nat.pow_le_pow_right (by norm_num) hle) hlog

/-- Helper: numbers below `2^256` have at most 32 bytes. -/
theorem byteLen_le_32 {n : Nat} (h : n < 2 ^ 256) : byteLen n ≤ 32 := by
  unfold byteLen
  by_cases h0 : n = 0
  · simp [h0]
  · rw [if_neg h0]
    have hlog : n.log2 < 256 := (Nat.log2_lt h0).mpr h
    omega

/-- Helper: the single-bit mask is nonzero exactly on a set bit. -/
theorem and_two_pow_ne_zero_iff (x k : Nat) : x &&& 2 ^ k ≠ 0 ↔ x.testBit k = true := by
  rw [Nat.and_two_pow]
  rcases h : x.testBit k <;> simp [h]

/-- Helper: under a one-bit headroom bound, the top bit reads as a
threshold. -/
theorem testBit_iff_le {m k : Nat} (h : m < 2 ^ (k + 1)) : m.testBit k = true ↔ 2 ^ k ≤ m := by
  have hp : 0 < 2 ^ k := Nat.pos_pow_of_pos k (by norm_num)
  have hd : m / 2 ^ k < 2 := by
    apply Nat.div_lt_of_lt_mul
    rw [← pow_succ]
    exact h
  rw [Nat.testBit_to_div_mod, Nat.mod_eq_of_lt hd, decide_eq_true_eq]
  constructor
  · intro h'
    calc 2 ^ k = 1 * 2 ^ k := (one_mul _).symm
      _ ≤ m := (Nat.le_div_iff_mul_le hp).mp (by omega)
  · intro h'
    have h1 : 1 ≤ m / 2 ^ k := (Nat.le_div_iff_mul_le hp).mpr (by omega)
    omega

/-- Helper: a shifted exponent or-ed with a small mantissa is their
sum. -/
theorem shiftLeft_or_eq_add (a b k : Nat) (h : b < 2 ^ k) :
    (a <<< k) ||| b = 2 ^ k * a + b := by
  rw [Nat.shiftLeft_eq, Nat.mul_comm a (2 ^ k)]
  exact (Nat.mul_add_lt_is_or h a).symm

/-- Helper: decoding a well-formed compact value (exponent at most 33,
mantissa below the sign bit) recovers the mantissa scaled by the
byte exponent. -/
theorem compactToBig_encode (e m : Nat) (he : e ≤ 33) (hm : m < 2 ^ 23) :
    CompactToBig ((e <<< 24) % 2 ^ 32 ||| m) =
      ((if e ≤ 3 then m >>> (8 * (3 - e)) else m <<< (8 * (e - 3)) : Nat) : Int) := by
  have hsh : (e <<< 24) % 2 ^ 32 = e <<< 24 := by
    apply Nat.mod_eq_of_lt
    rw [Nat.shiftLeft_eq]
    calc e * 2 ^ 24 ≤ 33 * 2 ^ 24 := Nat.mul_le_mul_right _ he
      _ < 2 ^ 32 := by norm_num
  have hm24 : m < 2 ^ 24 := lt_trans hm (by norm_num)
  rw [hsh, shiftLeft_or_eq_add e m 24 hm24]
  have hexp : (2 ^ 24 * e + m) >>> 24 = e := by
    rw [Nat.shiftRight_eq_div_pow, Nat.mul_add_div (by norm_num), Nat.div_eq_of_lt hm24,
      Nat.add_zero]
  have hmask : (2 ^ 24 * e + m) &&& 0x007fffff = m := by
    have h7f : (0x007fffff : Nat) = 2 ^ 23 - 1 := by norm_num
    rw [h7f, Nat.and_pow_two_sub_one_eq_mod]
    have hsplit : 2 ^ 24 * e + m = 2 ^ 23 * (2 * e) + m := by ring
    rw [hsplit, Nat.mul_add_mod, Nat.mod_eq_of_lt hm]
  have hsign : (2 ^ 24 * e + m) &&& 0x00800000 = 0 := by
    have h80 : (0x00800000 : Nat) = 2 ^ 23 := by norm_num
    rw [h80]
    have htb : (2 ^ 24 * e + m).testBit 23 = false := by
      rw [Nat.testBit_to_div_mod]
      have hdiv : (2 ^ 24 * e + m) / 2 ^ 23 = 2 * e := by
        have hsplit : 2 ^ 24 * e + m = 2 ^ 23 * (2 * e) + m := by ring
        rw [hsplit, Nat.mul_add_div (by norm_num), Nat.div_eq_of_lt hm, Nat.add_zero]
      rw [hdiv]
      simp [Nat.mul_mod_right]
    rw [Nat.and_two_pow, htb]
    simp
  unfold CompactToBig
  simp only [hexp, hmask, hsign]
  norm_num

/-- C9.  For every positive `n ≤ 2^256 - 1`, decoding the compact
encoding of `n` reproduces `n` truncated to its 23 most significant
mantissa bits: exact when the mantissa window at `n`'s byte-length
exponent stays below the sign bit, and with the low bits beyond the
encoded mantissa zeroed otherwise (one extra byte dropped when the
window's top bit would collide with the sign bit). -/
theorem compact_roundtrip (n : Nat) (h1 : 1 ≤ n) (h2 : n ≤ 2 ^ 256 - 1) :
    CompactToBig (BigToCompact (n : Int)) = (specTruncate23 n : Int) := by
  have hn0 : n ≠ 0 := by omega
  have hL1 : 1 ≤ byteLen n := byteLen_pos hn0
  have hLlt : n < 2 ^ (8 * byteLen n) := lt_two_pow_mul_byteLen n
  have hLge : 2 ^ (8 * (byteLen n - 1)) ≤ n := two_pow_byteLen_pred_le hn0
  have hL32 : byteLen n ≤ 32 := byteLen_le_32 (by omega)
  have hneg : ¬ ((n : Int) < 0) := not_lt.mpr (Int.natCast_nonneg n)
  rw [BigToCompact, if_neg (show ¬ ((n : Int) = 0) by exact_mod_cast hn0)]
  simp only [Int.natAbs_ofNat]
  rw [if_neg hneg]
  by_cases hc3 : byteLen n ≤ 3
  · -- at most three bytes: the mantissa is n shifted left
    have hn24 : n < 2 ^ 24 :=
      lt_of_lt_of_le hLlt (Nat.pow_le_pow_right (by norm_num) (by omega))
    have hmod32 : n % 2 ^ 64 % 2 ^ 32 = n := by
      rw [Nat.mod_eq_of_lt (lt_trans hn24 (by norm_num)),
        Nat.mod_eq_of_lt (lt_trans hn24 (by norm_num))]
    have hm0eq : n <<< (8 * (3 - byteLen n)) = n * 2 ^ (8 * (3 - byteLen n)) :=
      Nat.shiftLeft_eq _ _
    have hm0lt : n <<< (8 * (3 - byteLen n)) < 2 ^ 24 := by
      rw [hm0eq]
      have hexp' : 8 * byteLen n + 8 * (3 - byteLen n) = 24 := by omega
      calc n * 2 ^ (8 * (3 - byteLen n)) <
          2 ^ (8 * byteLen n) * 2 ^ (8 * (3 - byteLen n)) := by
            exact Nat.mul_lt_mul_of_lt_of_le hLlt (le_refl _) (Nat.pos_pow_of_pos _ (by norm_num))
        _ = 2 ^ 24 := by rw [← pow_add, hexp']
    have hm0mod : n <<< (8 * (3 - byteLen n)) % 2 ^ 32 = n <<< (8 * (3 - byteLen n)) :=
      Nat.mod_eq_of_lt (lt_trans hm0lt (by norm_num))
    rw [if_pos hc3, hmod32, hm0mod]
    have hback : (n <<< (8 * (3 - byteLen n))) >>> (8 * (3 - byteLen n)) = n := by
      rw [hm0eq, Nat.shiftRight_eq_div_pow,
        Nat.mul_div_cancel _ (Nat.pos_pow_of_pos _ (by norm_num))]
    by_cases hcol : 2 ^ 23 ≤ n <<< (8 * (3 - byteLen n))
    · -- the window's top bit collides with the sign bit
      have hcond : n <<< (8 * (3 - byteLen n)) &&& 0x00800000 ≠ 0 := by
        have h80 : (0x00800000 : Nat) = 2 ^ 23 := by norm_num
        rw [h80, and_two_pow_ne_zero_iff]
        exact (testBit_iff_le (k := 23) (by exact hm0lt)).mpr hcol
      rw [if_pos hcond]
      have hm1lt : (n <<< (8 * (3 - byteLen n))) >>> 8 < 2 ^ 23 := by
        rw [Nat.shiftRight_eq_div_pow]
        have hml : n <<< (8 * (3 - byteLen n)) < 2 ^ 8 * 2 ^ 16 := by
          rw [← pow_add]
          exact hm0lt
        exact lt_trans (Nat.div_lt_of_lt_mul hml) (by norm_num)
      rw [compactToBig_encode (byteLen n + 1) _ (by omega) hm1lt]
      rw [specTruncate23, specMantissaWindow, if_pos hc3,
        if_neg (not_lt.mpr hcol)]
      by_cases hc2 : byteLen n ≤ 2
      · -- still at most three bytes after the shift: exact roundtrip
        rw [if_pos (show byteLen n + 1 ≤ 3 by omega)]
        rw [← Nat.shiftRight_add]
        have hshsum : 8 + 8 * (3 - (byteLen n + 1)) = 8 * (3 - byteLen n) := by omega
        rw [hshsum, hback]
        have hz : 8 * (byteLen n - 2) = 0 := by omega
        rw [hz, Nat.shiftRight_zero, Nat.shiftLeft_zero]
      · -- exactly three bytes: the low byte is dropped
        have hL3 : byteLen n = 3 := by omega
        rw [if_neg (show ¬ (byteLen n + 1 ≤ 3) by omega)]
        have hz : 8 * (3 - byteLen n) = 0 := by omega
        rw [hz, Nat.shiftLeft_zero] at *
        have h1' : byteLen n + 1 - 3 = byteLen n - 2 := by omega
        rw [h1', hL3]
    · -- no collision: exact roundtrip
      have hcond : ¬ (n <<< (8 * (3 - byteLen n)) &&& 0x00800000 ≠ 0) := by
        have h80 : (0x00800000 : Nat) = 2 ^ 23 := by norm_num
        rw [h80, and_two_pow_ne_zero_iff]
        simp only [Bool.not_eq_true]
        rw [← Bool.not_eq_true]
        intro hbt
        exact hcol ((testBit_iff_le (k := 23) (by exact hm0lt)).mp hbt)
      rw [if_neg hcond]
      rw [compactToBig_encode (byteLen n) _ (by omega) (by omega)]
      rw [if_pos hc3, hback]
      rw [specTruncate23, specMantissaWindow, if_pos hc3, if_pos (by omega)]
      have hz : 8 * (byteLen n - 3) = 0 := by omega
      rw [hz, Nat.shiftRight_zero, Nat.shiftLeft_zero]
  · -- more than three bytes: the mantissa is the top three bytes of n
    have hm0lt : n >>> (8 * (byteLen n - 3)) < 2 ^ 24 := by
      rw [Nat.shiftRight_eq_div_pow]
      apply Nat.div_lt_of_lt_mul
      rw [← pow_add]
      have : 8 * (byteLen n - 3) + 24 = 8 * byteLen n := by omega
      rw [this]
      exact hLlt
    have hmods : n >>> (8 * (byteLen n - 3)) % 2 ^ 64 % 2 ^ 32 =
        n >>> (8 * (byteLen n - 3)) := by
      rw [Nat.mod_eq_of_lt (lt_trans hm0lt (by norm_num)),
        Nat.mod_eq_of_lt (lt_trans hm0lt (by norm_num))]
    rw [if_neg hc3, hmods]
    by_cases hcol : 2 ^ 23 ≤ n >>> (8 * (byteLen n - 3))
    · have hcond : n >>> (8 * (byteLen n - 3)) &&& 0x00800000 ≠ 0 := by
        have h80 : (0x00800000 : Nat) = 2 ^ 23 := by norm_num
        rw [h80, and_two_pow_ne_zero_iff]
        exact (testBit_iff_le (k := 23) (by exact hm0lt)).mpr hcol
      rw [if_pos hcond]
      have hm1lt : (n >>> (8 * (byteLen n - 3))) >>> 8 < 2 ^ 23 := by
        rw [Nat.shiftRight_eq_div_pow]
        have hml : n >>> (8 * (byteLen n - 3)) < 2 ^ 8 * 2 ^ 16 := by
          rw [← pow_add]
          exact hm0lt
        exact lt_trans (Nat.div_lt_of_lt_mul hml) (by norm_num)
      rw [compactToBig_encode (byteLen n + 1) _ (by omega) hm1lt]
      rw [if_neg (show ¬ (byteLen n + 1 ≤ 3) by omega)]
      rw [← Nat.shiftRight_add]
      have hsum : 8 * (byteLen n - 3) + 8 = 8 * (byteLen n - 2) := by omega
      have hsum2 : byteLen n + 1 - 3 = byteLen n - 2 := by omega
      rw [hsum, hsum2]
      rw [specTruncate23, specMantissaWindow, if_neg hc3, if_neg (not_lt.mpr hcol)]
    · have hcond : ¬ (n >>> (8 * (byteLen n - 3)) &&& 0x00800000 ≠ 0) := by
        have h80 : (0x00800000 : Nat) = 2 ^ 23 := by norm_num
        rw [h80, and_two_pow_ne_zero_iff]
        simp only [Bool.not_eq_true]
        rw [← Bool.not_eq_true]
        intro hbt
        exact hcol ((testBit_iff_le (k := 23) (by exact hm0lt)).mp hbt)
      rw [if_neg hcond]
      rw [compactToBig_encode (byteLen n) _ (by omega) (by omega)]
      rw [if_neg hc3]
      rw [specTruncate23, specMantissaWindow, if_neg hc3, if_pos (by omega)]

/-- Helper: pin down the byte length from a two-sided power bound. -/
theorem byteLen_eq_of_bounds (n k : Nat) (hlo : 2 ^ k ≤ n) (hhi : n < 2 ^ (k + 1)) :
    byteLen n = k / 8 + 1 := by
  have hn0 : n ≠ 0 := by
    have := Nat.pos_pow_of_pos k (show 0 < 2 by norm_num)
    omega
  unfold byteLen
  rw [if_neg hn0]
  have ha := (Nat.le_log2 hn0).mpr hlo
  have hb := (Nat.log2_lt hn0).mpr hhi
  omega

/-- C9 witness: concrete checks of the roundtrip — an exactly
representable value, a four-byte value with its low byte dropped, and a
collision case losing an extra byte. -/
theorem compact_roundtrip_witness :
    CompactToBig (BigToCompact ((0x123456 : Nat) : Int)) = ((specTruncate23 0x123456 : Nat) : Int) ∧
    CompactToBig (BigToCompact ((0x12345678 : Nat) : Int)) = ((specTruncate23 0x12345678 : Nat) : Int) ∧
    CompactToBig (BigToCompact ((0x81345678 : Nat) : Int)) = ((specTruncate23 0x81345678 : Nat) : Int) ∧
    specTruncate23 0x123456 = 0x123456 ∧
    specTruncate23 0x12345678 = 0x12345600 ∧
    specTruncate23 0x81345678 = 0x81340000 := by
  have hb1 : byteLen 0x123456 = 3 := by
    have h := byteLen_eq_of_bounds 0x123456 20 (by norm_num) (by norm_num)
    simpa using h
  have hb2 : byteLen 0x12345678 = 4 := by
    have h := byteLen_eq_of_bounds 0x12345678 28 (by norm_num) (by norm_num)
    simpa using h
  have hb3 : byteLen 0x81345678 = 4 := by
    have h := byteLen_eq_of_bounds 0x81345678 31 (by norm_num) (by norm_num)
    simpa using h
  refine ⟨compact_roundtrip 0x123456 (by norm_num) (by norm_num),
    compact_roundtrip 0x12345678 (by norm_num) (by norm_num),
    compact_roundtrip 0x81345678 (by norm_num) (by norm_num), ?_, ?_, ?_⟩
  · rw [specTruncate23, specMantissaWindow, hb1]
    decide
  · rw [specTruncate23, specMantissaWindow, hb2]
    decide
  · rw [specTruncate23, specMantissaWindow, hb3]
    decide

end Classzz
